import Mathlib

/-!
# InkHarmony core engine: shallow embedding and verification

This file embeds the core orchestration engine of the InkHarmony repository
(`src/core/workflow.py`, `src/core/messaging.py`, `src/core/storage.py`)
into Lean 4 and proves (or refutes) the frozen claims about it.

Modelling conventions:
* Python `dict`s are modelled as insertion-ordered association lists
  (`List (String × α)`); assignment to a fresh key appends, assignment to an
  existing key replaces the value in place, exactly like CPython dicts.
* `time.time()` is modelled by an explicit `Nat` clock value passed to each
  operation that reads the clock.
* Python exceptions (`ValueError`, `KeyError`) are modelled with
  `Except String`; operations that cannot raise are total.
* Python truthiness of `Optional[str]` is modelled explicitly: both `None`
  and the empty string are falsy (`if not self.current_phase`,
  `while root_msg.parent_id`), and `0` is a falsy timestamp
  (`if not self.started_at`).
* `save_state`/logging are I/O side effects with no influence on the
  in-memory state transitions that the claims are about; they are omitted.
* `WORKFLOW_PHASES` comes from `config.py`, which is not part of the given
  sources; the engine is therefore parametrised by the configured phase
  list `cfg`, and concrete instantiations use the sequence
  `["outline", "draft", "polish"]` named in the specification's scenarios.
-/

/-- Python-dict lookup on an insertion-ordered association list. -/
def dlookup (k : String) : List (String × α) → Option α
  | [] => none
  | (k', v) :: rest => if k' = k then some v else dlookup k rest

/-- Python-dict assignment `d[k] = v`: replaces in place if the key exists,
appends otherwise. -/
def dinsert (k : String) (v : α) : List (String × α) → List (String × α)
  | [] => [(k, v)]
  | (k', v') :: rest =>
      if k' = k then (k, v) :: rest else (k', v') :: dinsert k v rest

/-- In-place mutation of the value stored at `k` (e.g. Python
`d[k].append(x)` or mutating a stored object); no effect if `k` is absent
(callers model the `KeyError` of a genuine miss separately). -/
def dupdate (k : String) (f : α → α) : List (String × α) → List (String × α)
  | [] => []
  | (k', v) :: rest =>
      if k' = k then (k', f v) :: rest else (k', v) :: dupdate k f rest

theorem dlookup_dinsert_self (k : String) (v : α) (l : List (String × α)) :
    dlookup k (dinsert k v l) = some v := by
  induction l with
  | nil => simp [dinsert, dlookup]
  | cons hd tl ih =>
      obtain ⟨k', v'⟩ := hd
      by_cases h : k' = k <;> simp [dinsert, dlookup, h, ih]

theorem dlookup_dinsert_ne (h : k ≠ k') (v : α) (l : List (String × α)) :
    dlookup k (dinsert k' v l) = dlookup k l := by
  induction l with
  | nil => simp [dinsert, dlookup, Ne.symm h]
  | cons hd tl ih =>
      obtain ⟨a, b⟩ := hd
      by_cases ha : a = k'
      · subst ha
        simp [dinsert, dlookup, Ne.symm h]
      · simp [dinsert, dlookup, ha, ih]

theorem dlookup_dupdate_self (k : String) (f : α → α) (l : List (String × α)) :
    dlookup k (dupdate k f l) = (dlookup k l).map f := by
  induction l with
  | nil => simp [dupdate, dlookup]
  | cons hd tl ih =>
      obtain ⟨a, b⟩ := hd
      by_cases ha : a = k <;> simp [dupdate, dlookup, ha, ih]

theorem dlookup_dupdate_ne (h : k ≠ k') (f : α → α) (l : List (String × α)) :
    dlookup k (dupdate k' f l) = dlookup k l := by
  induction l with
  | nil => simp [dupdate, dlookup]
  | cons hd tl ih =>
      obtain ⟨a, b⟩ := hd
      by_cases ha : a = k'
      · subst ha
        simp [dupdate, dlookup, Ne.symm h]
      · simp [dupdate, dlookup, ha, ih]

theorem dupdate_dupdate (k : String) (f g : α → α) (l : List (String × α)) :
    dupdate k g (dupdate k f l) = dupdate k (g ∘ f) l := by
  induction l with
  | nil => simp [dupdate]
  | cons hd tl ih =>
      obtain ⟨a, b⟩ := hd
      by_cases ha : a = k <;> simp [dupdate, ha, ih]

theorem dupdate_eq_self (k : String) (f : α → α) (l : List (String × α))
    (h : ∀ v, dlookup k l = some v → f v = v) : dupdate k f l = l := by
  induction l with
  | nil => simp [dupdate]
  | cons hd tl ih =>
      obtain ⟨a, b⟩ := hd
      by_cases ha : a = k
      · subst ha
        have := h b (by simp [dlookup])
        simp [dupdate, this]
      · simp [dlookup, ha] at h
        simp [dupdate, ha, ih h]

theorem dupdate_keys (k : String) (f : α → α) (l : List (String × α)) :
    (dupdate k f l).map Prod.fst = l.map Prod.fst := by
  induction l with
  | nil => simp [dupdate]
  | cons hd tl ih =>
      obtain ⟨a, b⟩ := hd
      by_cases ha : a = k <;> simp [dupdate, ha, ih]

theorem dupdate_congr (k : String) (f g : α → α) (l : List (String × α))
    (h : ∀ v, dlookup k l = some v → f v = g v) : dupdate k f l = dupdate k g l := by
  induction l with
  | nil => simp [dupdate]
  | cons hd tl ih =>
      obtain ⟨a, b⟩ := hd
      by_cases ha : a = k
      · subst ha
        have := h b (by simp [dlookup])
        simp [dupdate, this]
      · simp [dlookup, ha] at h
        simp [dupdate, ha, ih h]

/-! ## Workflow state machine (`src/core/workflow.py`) -/

/-- Source `WorkflowStatus` enum (workflow.py lines 25-31). -/
inductive WorkflowStatus
  | pending
  | running
  | paused
  | completed
  | failed
deriving DecidableEq

/-- Source `PhaseStatus` enum (workflow.py lines 34-40). -/
inductive PhaseStatus
  | pending
  | running
  | paused
  | completed
  | failed
deriving DecidableEq

/-- Source `Phase` dataclass (workflow.py lines 43-87).  Task and result payloads
(Python `Any`) are modelled as strings; the engine never inspects them. -/
structure Phase where
  name : String
  status : PhaseStatus := .pending
  started_at : Option Nat := none
  completed_at : Option Nat := none
  tasks : List (String × String) := []
  results : List (String × String) := []
  errors : List String := []
deriving DecidableEq

namespace Phase

/-- Source `Phase.start` (lines 54-57); `t` is the value of `time.time()`. -/
def start (t : Nat) (p : Phase) : Phase :=
  { p with status := .running, started_at := some t }

/-- Source `Phase.complete` (lines 59-62). -/
def complete (t : Nat) (p : Phase) : Phase :=
  { p with status := .completed, completed_at := some t }

/-- Source `Phase.fail` (lines 64-67): `self.errors.append(error)`. -/
def fail (error : String) (p : Phase) : Phase :=
  { p with status := .failed, errors := p.errors ++ [error] }

/-- Source `Phase.pause` (lines 69-71). -/
def pause (p : Phase) : Phase :=
  { p with status := .paused }

/-- Source `Phase.add_task` (lines 73-75): dict assignment. -/
def add_task (task_id task_data : String) (p : Phase) : Phase :=
  { p with tasks := dinsert task_id task_data p.tasks }

/-- Source `Phase.add_result` (lines 77-79). -/
def add_result (task_id result_data : String) (p : Phase) : Phase :=
  { p with results := dinsert task_id result_data p.results }

/-- Source `Phase.duration` (lines 81-87); `now` is `time.time()`.  Python's
`if not self.started_at` and `self.completed_at or time.time()` treat the
float `0.0` as falsy, which the `= 0` tests reproduce. -/
def duration (now : Nat) (p : Phase) : Option Int :=
  match p.started_at with
  | none => none
  | some s =>
      if s = 0 then none
      else
        let e : Nat := match p.completed_at with
          | none => now
          | some c => if c = 0 then now else c
        some ((e : Int) - (s : Int))

end Phase

/-- Source `BookWorkflow` dataclass fields (workflow.py lines 90-100).  The
`storage` handle and persistence calls are I/O and carry no transition
state; `metadata` is carried but never mutated by the engine operations. -/
structure BookWorkflow where
  book_id : String
  status : WorkflowStatus := .pending
  started_at : Option Nat := none
  completed_at : Option Nat := none
  current_phase : Option String := none
  phases : List (String × Phase) := []
  metadata : List (String × String) := []
deriving DecidableEq

namespace BookWorkflow

/-- Source `__post_init__` (lines 102-110): one `Phase` per configured name,
inserted in configuration order into the `phases` dict. -/
def init (cfg : List String) (book_id : String) : BookWorkflow :=
  { book_id := book_id,
    phases := cfg.foldl (fun ps n => dinsert n { name := n } ps) [] }

/-- Source `BookWorkflow.complete` (lines 121-128). -/
def complete (t : Nat) (w : BookWorkflow) : BookWorkflow :=
  { w with status := .completed, completed_at := some t, current_phase := none }

/-- The tail of `start_phase` (lines 178-184) once the current phase (if
any) has been completed: record the new current phase and start it.  The
preceding `phase = self.phases[phase_name]` lookup is a `KeyError` if the
name is absent. -/
def start_phase_aux (t : Nat) (phase_name : String) (w : BookWorkflow) :
    Except String BookWorkflow :=
  match dlookup phase_name w.phases with
  | none => .error ("KeyError: " ++ phase_name)
  | some _ =>
      .ok { w with current_phase := some phase_name,
                   phases := dupdate phase_name (Phase.start t) w.phases }

/-- Python `list.index(x)`: the first index whose element equals `x`,
`ValueError` (here `none`) if absent. -/
def pyIndex (x : String) : List String → Option Nat
  | [] => none
  | a :: rest => if a = x then some 0 else (pyIndex x rest).map (· + 1)

/-- Source `BookWorkflow.complete_phase` (lines 186-207).  The recursive
`self.start_phase(next_phase)` on line 202 runs with `current_phase`
already cleared (line 201), so it is exactly its name check followed by
`start_phase_aux`; inlining it this way avoids mutual recursion while
computing the same result. -/
def complete_phase (cfg : List String) (t : Nat) (w : BookWorkflow) :
    Except String BookWorkflow :=
  match w.current_phase with
  | none => .ok w
  | some cur =>
      if cur = "" then .ok w   -- `if not self.current_phase: return`
      else
        match dlookup cur w.phases with
        | none => .error ("KeyError: " ++ cur)
        | some _ =>
            let w1 : BookWorkflow :=
              { w with phases := dupdate cur (Phase.complete t) w.phases }
            match pyIndex cur cfg with   -- `WORKFLOW_PHASES.index(...)`
            | none => .error ("ValueError: " ++ cur ++ " is not in list")
            | some i =>
                if i < cfg.length - 1 then
                  -- lines 200-202: clear current, then start_phase(next)
                  let next := cfg.getD (i + 1) ""
                  let w2 : BookWorkflow := { w1 with current_phase := none }
                  match dlookup next w2.phases with
                  | none => .error ("ValueError: Unknown phase: " ++ next)
                  | some _ => start_phase_aux t next w2
                else
                  .ok (complete t w1)

/-- Source `BookWorkflow.start_phase` (lines 164-184): validate the name, complete
the currently active phase through `complete_phase` (line 176), then mark
the named phase running and current. -/
def start_phase (cfg : List String) (t : Nat) (phase_name : String)
    (w : BookWorkflow) : Except String BookWorkflow :=
  match dlookup phase_name w.phases with
  | none => .error ("ValueError: Unknown phase: " ++ phase_name)
  | some _ =>
      let step1 : Except String BookWorkflow :=
        match w.current_phase with
        | none => .ok w
        | some cur => if cur = "" then .ok w else complete_phase cfg t w
      match step1 with
      | .error e => .error e
      | .ok w' => start_phase_aux t phase_name w'

/-- Source `BookWorkflow.start` (lines 112-119): `WORKFLOW_PHASES[0]` raises
`IndexError` on an empty configuration. -/
def start (cfg : List String) (t : Nat) (w : BookWorkflow) :
    Except String BookWorkflow :=
  let w1 : BookWorkflow := { w with status := .running, started_at := some t }
  match cfg with
  | [] => .error "IndexError: list index out of range"
  | first :: _ => start_phase cfg t first w1

/-- Source `BookWorkflow.fail` (lines 130-139). -/
def fail (error : String) (w : BookWorkflow) : Except String BookWorkflow :=
  let w1 : BookWorkflow := { w with status := .failed }
  match w1.current_phase with
  | none => .ok w1
  | some cur =>
      if cur = "" then .ok w1   -- `if self.current_phase:` truthiness
      else
        match dlookup cur w1.phases with
        | none => .error ("KeyError: " ++ cur)
        | some _ => .ok { w1 with phases := dupdate cur (Phase.fail error) w1.phases }

/-- Source `BookWorkflow.pause` (lines 141-149). -/
def pause (w : BookWorkflow) : Except String BookWorkflow :=
  let w1 : BookWorkflow := { w with status := .paused }
  match w1.current_phase with
  | none => .ok w1
  | some cur =>
      if cur = "" then .ok w1
      else
        match dlookup cur w1.phases with
        | none => .error ("KeyError: " ++ cur)
        | some _ => .ok { w1 with phases := dupdate cur Phase.pause w1.phases }

/-- Source `BookWorkflow.resume` (lines 151-162): early return unless Paused;
restores the active phase's status by direct assignment (no timestamp). -/
def resume (w : BookWorkflow) : Except String BookWorkflow :=
  if w.status ≠ WorkflowStatus.paused then .ok w
  else
    let w1 : BookWorkflow := { w with status := .running }
    match w1.current_phase with
    | none => .ok w1
    | some cur =>
        if cur = "" then .ok w1
        else
          match dlookup cur w1.phases with
          | none => .error ("KeyError: " ++ cur)
          | some _ =>
              .ok { w1 with
                    phases := dupdate cur (fun p => { p with status := .running }) w1.phases }

/-- Source `BookWorkflow.add_task` (lines 209-216): warning + no-op when no phase
is active. -/
def add_task (task_id task_data : String) (w : BookWorkflow) :
    Except String BookWorkflow :=
  match w.current_phase with
  | none => .ok w
  | some cur =>
      if cur = "" then .ok w
      else
        match dlookup cur w.phases with
        | none => .error ("KeyError: " ++ cur)
        | some _ => .ok { w with phases := dupdate cur (Phase.add_task task_id task_data) w.phases }

/-- Source `BookWorkflow.add_result` (lines 218-225). -/
def add_result (task_id result_data : String) (w : BookWorkflow) :
    Except String BookWorkflow :=
  match w.current_phase with
  | none => .ok w
  | some cur =>
      if cur = "" then .ok w
      else
        match dlookup cur w.phases with
        | none => .error ("KeyError: " ++ cur)
        | some _ => .ok { w with phases := dupdate cur (Phase.add_result task_id result_data) w.phases }

/-- Source `BookWorkflow.duration` (lines 255-261), same falsy-zero handling as
`Phase.duration`. -/
def duration (now : Nat) (w : BookWorkflow) : Option Int :=
  match w.started_at with
  | none => none
  | some s =>
      if s = 0 then none
      else
        let e : Nat := match w.completed_at with
          | none => now
          | some c => if c = 0 then now else c
        some ((e : Int) - (s : Int))

/-- Status of a named phase, as observed through the `phases` dict. -/
def phaseStatus (name : String) (w : BookWorkflow) : Option PhaseStatus :=
  (dlookup name w.phases).map Phase.status

end BookWorkflow

/-! ## Message bus (`src/core/messaging.py`) -/

/-- Source `MessageType` enum (messaging.py lines 12-20). -/
inductive MessageType
  | task
  | result
  | feedback
  | query
  | response
  | status
  | error
deriving DecidableEq

/-- Source `Message` dataclass (messaging.py lines 23-33).  `content` and
`metadata` payload values (Python `Any`) are modelled as strings; the bus
never inspects them.  The ISO timestamp string is kept as a `String`,
compared lexicographically exactly as Python compares it. -/
structure Message where
  message_id : String
  message_type : MessageType := .task
  sender : String := "system"
  recipient : String := "maestro"
  content : List (String × String) := []
  timestamp : String := ""
  parent_id : Option String := none
  metadata : List (String × String) := []
deriving DecidableEq

/-- Source `MessageQueue` state (messaging.py lines 58-62). -/
structure MessageQueue where
  queues : List (String × List Message) := []
  history : List Message := []
deriving DecidableEq

namespace MessageQueue

/-- Source `register_agent` (lines 64-67). -/
def register_agent (agent_id : String) (q : MessageQueue) : MessageQueue :=
  match dlookup agent_id q.queues with
  | some _ => q
  | none => { q with queues := q.queues ++ [(agent_id, [])] }

/-- Source `send_message` (lines 69-84); the returned `message_id` is
`message.message_id`, so it is not carried separately. -/
def send_message (message : Message) (q : MessageQueue) : MessageQueue :=
  let q1 := register_agent message.sender q
  let q2 := register_agent message.recipient q1
  { q2 with
    queues := dupdate message.recipient (fun l => l ++ [message]) q2.queues,
    history := q2.history ++ [message] }

/-- Source `get_messages` (lines 86-91): drain and return the mailbox. -/
def get_messages (agent_id : String) (q : MessageQueue) :
    List Message × MessageQueue :=
  let q1 := register_agent agent_id q
  let messages := (dlookup agent_id q1.queues).getD []
  (messages, { q1 with queues := dupdate agent_id (fun _ => []) q1.queues })

/-- The observable mailbox of an agent (empty when unregistered). -/
def mailbox (agent_id : String) (q : MessageQueue) : List Message :=
  (dlookup agent_id q.queues).getD []

/-- Sending a batch of messages one after the other. -/
def sendAll (ms : List Message) (q : MessageQueue) : MessageQueue :=
  ms.foldl (fun q m => send_message m q) q

/-- Source `next((m for m in self.history if m.message_id == message_id), None)`
(line 124 and line 131). -/
def findMsg (history : List Message) (message_id : String) : Option Message :=
  history.find? (fun m => m.message_id = message_id)

/-- The `while root_msg.parent_id` loop of `get_conversation`
(lines 128-134).  The Python loop has no fuel and diverges on a cycle of
`parent_id` links; histories produced by `send_message` are append-ordered
and acyclic, and callers pass fuel `history.length + 1`, which the walk can
never exhaust on such a history.  An empty-string `parent_id` is falsy in
Python and stops the walk. -/
def findRoot (fuel : Nat) (history : List Message) (m : Message) : Message :=
  match fuel with
  | 0 => m
  | fuel + 1 =>
      match m.parent_id with
      | none => m
      | some pid =>
          if pid = "" then m
          else
            match findMsg history pid with
            | none => m   -- defensive break: missing parent is the root
            | some parent => findRoot fuel history parent

/-- Source `_add_children_to_thread` (lines 144-149): depth-first appending of all
messages whose `parent_id` equals the given id.  Fuel plays the same role
as in `findRoot`. -/
def addChildren (fuel : Nat) (history : List Message) (parent_id : String) :
    List Message :=
  match fuel with
  | 0 => []
  | fuel + 1 =>
      ((history.filter (fun m => m.parent_id = some parent_id)).map
        (fun child => child :: addChildren fuel history child.message_id)).flatten

/-- Source `get_conversation` (lines 118-142).  `thread_msgs.sort(key=...)` is
Python's stable ascending sort by the timestamp string, which
`List.insertionSort` with the non-strict key comparison computes. -/
def get_conversation (message_id : String) (q : MessageQueue) : List Message :=
  match findMsg q.history message_id with
  | none => []
  | some msg =>
      let root := findRoot (q.history.length + 1) q.history msg
      let thread := root :: addChildren (q.history.length + 1) q.history root.message_id
      thread.insertionSort (fun a b => a.timestamp ≤ b.timestamp)

end MessageQueue

/-! ## Storage layer (`src/core/storage.py`)

Only the component store is needed by the claims.  The filesystem tree
`components/<name>/<version>.txt` is modelled as a dict from component name
to a dict from version label to content; writing a file is dict insertion
(create or overwrite), `os.path.exists` failure is a `none` lookup. -/

/-- The component subtree of one book's `BookStorage` directory. -/
structure BookStorage where
  components : List (String × List (String × String)) := []
deriving DecidableEq

namespace BookStorage

/-- Source `save_component` (storage.py lines 65-96).  `nowLabel` is the
`datetime.now().strftime("%Y%m%d_%H%M%S")` default label; Python's
`if not version` treats both `None` and `""` as "no label supplied".
The write to `current.txt` happens first, then the versioned copy. -/
def save_component (component_name content : String) (version : Option String)
    (nowLabel : String) (st : BookStorage) : BookStorage :=
  let v := match version with
    | none => nowLabel
    | some s => if s = "" then nowLabel else s
  let dir := (dlookup component_name st.components).getD []
  let dir := dinsert "current" content dir
  let dir := dinsert v content dir
  { components := dinsert component_name dir st.components }

/-- Source `load_component` (storage.py lines 98-116); missing directory or file
gives `None`. -/
def load_component (component_name : String) (version : String)
    (st : BookStorage) : Option String :=
  (dlookup component_name st.components).bind (dlookup version)

end BookStorage

/-! ## The configured phase sequence -/

/-- Modelled from the spec: `WORKFLOW_PHASES` lives in `config.py`, which is
not among the given sources.  The specification's concrete scenarios (§8)
use the configured sequence `["outline","draft","polish"]`; general theorems
are parametrised by an arbitrary configured list instead. -/
def specPhases : List String := ["outline", "draft", "polish"]

/-! ## Claim theorems: easy workflow claims -/

open BookWorkflow in
/-- C5: on a workflow with no active phase, `complete_phase`, `add_task`
and `add_result` are no-ops that never raise: the returned workflow is the
input unchanged (hence status, current_phase, timestamps, and every phase's
status, tasks, results and errors are unchanged). -/
theorem no_active_phase_noops (cfg : List String) (t : Nat)
    (task_id task_data result_id result_data : String) (w : BookWorkflow)
    (h : w.current_phase = none) :
    complete_phase cfg t w = .ok w ∧
    add_task task_id task_data w = .ok w ∧
    add_result result_id result_data w = .ok w := by
  refine ⟨?_, ?_, ?_⟩ <;>
    simp [complete_phase, add_task, add_result, h]

open BookWorkflow in
/-- Witness for C5 at a fresh (never started) concrete workflow. -/
theorem no_active_phase_noops_witness :
    (BookWorkflow.init specPhases "book_1").current_phase = none ∧
    (complete_phase specPhases 5 (BookWorkflow.init specPhases "book_1") =
        .ok (BookWorkflow.init specPhases "book_1") ∧
      add_task "t1" "payload" (BookWorkflow.init specPhases "book_1") =
        .ok (BookWorkflow.init specPhases "book_1") ∧
      add_result "t1" "payload" (BookWorkflow.init specPhases "book_1") =
        .ok (BookWorkflow.init specPhases "book_1")) :=
  ⟨by decide, no_active_phase_noops specPhases 5 "t1" "payload" "t1" "payload" _ (by decide)⟩

open BookWorkflow in
/-- C3 counterexample: a workflow driven to Failed is moved to Paused by a
subsequent `pause()` call — the engine operation `pause` does change the
status away from Failed, so Failed is not terminal against all engine
operations. -/
theorem pause_escapes_failed_counterexample :
    (((start specPhases 1 (BookWorkflow.init specPhases "book_1")).bind
        (fail "boom")).map BookWorkflow.status = .ok .failed) ∧
    ((((start specPhases 1 (BookWorkflow.init specPhases "book_1")).bind
        (fail "boom")).bind pause).map BookWorkflow.status = .ok .paused) ∧
    WorkflowStatus.paused ≠ WorkflowStatus.failed := by
  refine ⟨by rfl, by rfl, by decide⟩

open BookWorkflow in
/-- C3 amended: Failed and Completed are preserved by `resume` (a complete
no-op), by `add_task`/`add_result` (which never touch the status), and by
`complete_phase` when no phase is active (as in every Completed state);
`pause`, `start`, `fail`, and `complete_phase` with an active phase can
still change the status, so neither Failed nor Completed is terminal. -/
theorem failed_completed_preserved_by_reads (cfg : List String) (t : Nat)
    (task_id task_data result_id result_data : String) (w : BookWorkflow)
    (h : w.status = .failed ∨ w.status = .completed) :
    resume w = .ok w ∧
    (∀ w', add_task task_id task_data w = .ok w' → w'.status = w.status) ∧
    (∀ w', add_result result_id result_data w = .ok w' → w'.status = w.status) ∧
    (w.current_phase = none → complete_phase cfg t w = .ok w) := by
  have hst : w.status ≠ .paused := by rcases h with h | h <;> simp [h]
  refine ⟨by simp [resume, hst], ?_, ?_, fun hc => by simp [complete_phase, hc]⟩
  · intro w' hw'
    unfold add_task at hw'
    split at hw'
    · cases hw'; rfl
    · split at hw'
      · cases hw'; rfl
      · split at hw'
        · cases hw'
        · cases hw'; rfl
  · intro w' hw'
    unfold add_result at hw'
    split at hw'
    · cases hw'; rfl
    · split at hw'
      · cases hw'; rfl
      · split at hw'
        · cases hw'
        · cases hw'; rfl

open BookWorkflow in
/-- Witness for the amended C3 at a concrete Failed workflow. -/
theorem failed_completed_preserved_by_reads_witness :
    ({ BookWorkflow.init specPhases "book_1" with status := .failed }.status = WorkflowStatus.failed ∨
      { BookWorkflow.init specPhases "book_1" with status := .failed }.status = WorkflowStatus.completed) ∧
    (resume { BookWorkflow.init specPhases "book_1" with status := .failed } =
        .ok { BookWorkflow.init specPhases "book_1" with status := .failed } ∧
      (∀ w', add_task "t" "d" { BookWorkflow.init specPhases "book_1" with status := .failed } = .ok w' →
        w'.status = { BookWorkflow.init specPhases "book_1" with status := .failed }.status) ∧
      (∀ w', add_result "t" "d" { BookWorkflow.init specPhases "book_1" with status := .failed } = .ok w' →
        w'.status = { BookWorkflow.init specPhases "book_1" with status := .failed }.status) ∧
      ({ BookWorkflow.init specPhases "book_1" with status := .failed }.current_phase = none →
        complete_phase specPhases 7 { BookWorkflow.init specPhases "book_1" with status := .failed } =
          .ok { BookWorkflow.init specPhases "book_1" with status := .failed })) :=
  ⟨Or.inl (by decide),
    failed_completed_preserved_by_reads specPhases 7 "t" "d" "t" "d" _ (Or.inl (by decide))⟩

open BookWorkflow in
/-- C2: evaluating the engine at the failing input.  With configured phases
`["outline","draft","polish"]`, after `start()` (current phase "outline"),
the single call `start_phase("polish")` leaves BOTH "draft" and "polish"
with status Running while `current_phase` is "polish": `start_phase`
delegates to `complete_phase`, which does not merely complete the active
phase but auto-starts its successor "draft", after which "polish" is
started as well — contradicting the single-active-phase invariant and
"completes whatever phase is currently active first" from the spec. -/
theorem start_phase_double_running_bug :
    ((start specPhases 1 (BookWorkflow.init specPhases "book_1")).bind
        (start_phase specPhases 2 "polish")).map
      (fun w => (w.current_phase, phaseStatus "outline" w,
                 phaseStatus "draft" w, phaseStatus "polish" w))
    = .ok (some "polish", some .completed, some .running, some .running) := by
  rfl

open BookWorkflow in
/-- C4: on a Running workflow with active phase `cur` (itself Running),
`pause()` followed immediately by `resume()` restores the exact original
workflow state — same status, same `current_phase`, and no phase's tasks,
results, errors or timestamps altered; moreover `resume()` is a complete
no-op whenever the status is not Paused. -/
theorem pause_resume_roundtrip (w : BookWorkflow) (cur : String) (p : Phase)
    (hst : w.status = .running) (hcur : w.current_phase = some cur)
    (hcne : cur ≠ "") (hp : dlookup cur w.phases = some p)
    (hps : p.status = .running) :
    (BookWorkflow.pause w).bind resume = .ok w ∧
    (∀ w' : BookWorkflow, w'.status ≠ .paused → resume w' = .ok w') := by
  constructor
  · have hpauseP : BookWorkflow.pause w =
        .ok { w with status := .paused, phases := dupdate cur Phase.pause w.phases } := by
      simp [BookWorkflow.pause, hcur, hcne, hp]
    rw [hpauseP]
    show resume _ = .ok w
    have hlook : dlookup cur (dupdate cur Phase.pause w.phases) =
        some (Phase.pause p) := by
      rw [dlookup_dupdate_self, hp]; rfl
    have hback :
        dupdate cur (fun q => { q with status := PhaseStatus.running })
          (dupdate cur Phase.pause w.phases) = w.phases := by
      rw [dupdate_dupdate]
      apply dupdate_eq_self
      intro v hv
      rw [hp] at hv
      cases hv
      cases p
      cases hps
      rfl
    simp only [resume, hcur, hcne, hlook]
    simp only [ne_eq, not_true_eq_false, reduceIte, hcne, if_neg]
    simp [hback]
    cases w
    simp_all
  · intro w' h
    simp [resume, h]

/-- The concrete Running workflow reached by `start()` on a fresh workflow
over the spec's configured phases; used as a witness state. -/
def startedWorkflow : BookWorkflow :=
  { book_id := "book_1", status := .running, started_at := some 1,
    completed_at := none, current_phase := some "outline",
    phases := [("outline", { name := "outline", status := .running, started_at := some 1 }),
               ("draft", { name := "draft" }), ("polish", { name := "polish" })],
    metadata := [] }

open BookWorkflow in
/-- Witness for C4 on a concrete Running workflow with active phase
"outline" (the state produced by `start()` on a fresh workflow). -/
theorem pause_resume_roundtrip_witness :
    (BookWorkflow.start specPhases 1 (BookWorkflow.init specPhases "book_1") =
        .ok startedWorkflow) ∧
    startedWorkflow.status = WorkflowStatus.running ∧
    startedWorkflow.current_phase = some "outline" ∧
    dlookup "outline" startedWorkflow.phases =
      some { name := "outline", status := .running, started_at := some 1 } ∧
    ((BookWorkflow.pause startedWorkflow).bind resume = .ok startedWorkflow ∧
      (∀ w' : BookWorkflow, w'.status ≠ WorkflowStatus.paused → resume w' = .ok w')) :=
  ⟨by rfl, by rfl, by rfl, by rfl,
    pause_resume_roundtrip startedWorkflow "outline"
      { name := "outline", status := .running, started_at := some 1 }
      (by rfl) (by rfl) (by decide) (by rfl) (by rfl)⟩

open BookWorkflow in
/-- C9 counterexample: a workflow whose `current_phase` is "draft" with
"outline" Completed, but whose "draft" phase already carries an earlier
error (reached by `fail`, `pause`, `resume`), ends with
`errors = ["disk full", "backend timeout"]` after `fail("backend timeout")`
— not `["backend timeout"]` as the claim states for every such workflow. -/
theorem fail_errors_append_counterexample :
    (((((BookWorkflow.start specPhases 1 (BookWorkflow.init specPhases "book_1")).bind
          (complete_phase specPhases 2)).bind
          (fail "disk full")).bind BookWorkflow.pause).bind resume).map
        (fun w => (w.current_phase, phaseStatus "outline" w)) =
      .ok (some "draft", some .completed) ∧
    ((((((BookWorkflow.start specPhases 1 (BookWorkflow.init specPhases "book_1")).bind
          (complete_phase specPhases 2)).bind
          (fail "disk full")).bind BookWorkflow.pause).bind resume).bind
          (fail "backend timeout")).map
        (fun w => (w.status, (dlookup "draft" w.phases).map Phase.errors)) =
      .ok (.failed, some ["disk full", "backend timeout"]) ∧
    (["disk full", "backend timeout"] : List String) ≠ ["backend timeout"] := by
  refine ⟨by rfl, by rfl, by decide⟩

open BookWorkflow in
/-- C9 amended: `fail("backend timeout")` while `current_phase` is "draft"
sets the workflow status to Failed, sets phases["draft"] to Failed with
"backend timeout" APPENDED to its errors (so errors equals
`["backend timeout"]` exactly when "draft" had no prior errors), leaves
"draft"'s timestamps, tasks and results untouched, and leaves every other
phase — in particular "outline" — entirely unchanged. -/
theorem fail_draft_effect (w : BookWorkflow) (pd : Phase)
    (hcur : w.current_phase = some "draft")
    (hpd : dlookup "draft" w.phases = some pd) :
    fail "backend timeout" w =
      .ok { w with status := .failed,
                   phases := dupdate "draft" (Phase.fail "backend timeout") w.phases } ∧
    (∀ w', fail "backend timeout" w = .ok w' →
      w'.status = .failed ∧
      phaseStatus "draft" w' = some .failed ∧
      (dlookup "draft" w'.phases).map Phase.errors =
        some (pd.errors ++ ["backend timeout"]) ∧
      (pd.errors = [] →
        (dlookup "draft" w'.phases).map Phase.errors = some ["backend timeout"]) ∧
      (dlookup "draft" w'.phases).map Phase.started_at = some pd.started_at ∧
      (dlookup "draft" w'.phases).map Phase.completed_at = some pd.completed_at ∧
      (dlookup "draft" w'.phases).map Phase.tasks = some pd.tasks ∧
      (dlookup "draft" w'.phases).map Phase.results = some pd.results ∧
      (∀ n, n ≠ "draft" → dlookup n w'.phases = dlookup n w.phases)) := by
  have heq : fail "backend timeout" w =
      .ok { w with status := .failed,
                   phases := dupdate "draft" (Phase.fail "backend timeout") w.phases } := by
    simp [fail, hcur, hpd]
  refine ⟨heq, fun w' hw' => ?_⟩
  rw [heq] at hw'
  cases hw'
  have hself : dlookup "draft" (dupdate "draft" (Phase.fail "backend timeout") w.phases) =
      some (Phase.fail "backend timeout" pd) := by
    rw [dlookup_dupdate_self, hpd]; rfl
  refine ⟨rfl, ?_, ?_, ?_, ?_, ?_, ?_, ?_, ?_⟩
  · simp [phaseStatus, hself, Phase.fail]
  · simp [hself, Phase.fail]
  · intro h0; simp [hself, Phase.fail, h0]
  · simp [hself, Phase.fail]
  · simp [hself, Phase.fail]
  · simp [hself, Phase.fail]
  · simp [hself, Phase.fail]
  · intro n hn
    exact dlookup_dupdate_ne hn _ _

/-- The concrete workflow state with "outline" Completed and "draft"
Running, as reached by `start()` then one `complete_phase()`; used as a
witness state for the amended C9. -/
def draftActiveWorkflow : BookWorkflow :=
  { book_id := "book_1", status := .running, started_at := some 1,
    completed_at := none, current_phase := some "draft",
    phases := [("outline", { name := "outline", status := .completed,
                             started_at := some 1, completed_at := some 2 }),
               ("draft", { name := "draft", status := .running, started_at := some 2 }),
               ("polish", { name := "polish" })],
    metadata := [] }

open BookWorkflow in
/-- Witness for the amended C9 at the concrete state with "outline"
Completed and "draft" Running (reached by `start`; `complete_phase`). -/
theorem fail_draft_effect_witness :
    ((BookWorkflow.start specPhases 1 (BookWorkflow.init specPhases "book_1")).bind
        (complete_phase specPhases 2) = .ok draftActiveWorkflow) ∧
    dlookup "draft" draftActiveWorkflow.phases =
      some { name := "draft", status := .running, started_at := some 2 } ∧
    fail "backend timeout" draftActiveWorkflow =
      .ok { draftActiveWorkflow with
            status := .failed,
            phases := dupdate "draft" (Phase.fail "backend timeout")
              draftActiveWorkflow.phases } := by
  refine ⟨by rfl, by rfl, ?_⟩
  exact (fail_draft_effect draftActiveWorkflow
    { name := "draft", status := .running, started_at := some 2 }
    (by rfl) (by rfl)).1

open BookWorkflow in
/-- C10: `fail(reason)` never stamps a completion timestamp — the
workflow's `completed_at` and every phase's `completed_at` (and
`started_at`) are exactly what they were before the call — so the duration
of a Failed workflow or phase with no completion timestamp is computed
against the live clock, `now - started_at`, and is strictly monotone in
`now` rather than frozen at the moment of failure. -/
theorem fail_never_stamps_completion (w w' : BookWorkflow) (reason : String)
    (h : fail reason w = .ok w') :
    w'.completed_at = w.completed_at ∧
    w'.started_at = w.started_at ∧
    (∀ n, (dlookup n w'.phases).map Phase.completed_at =
      (dlookup n w.phases).map Phase.completed_at) ∧
    (∀ n, (dlookup n w'.phases).map Phase.started_at =
      (dlookup n w.phases).map Phase.started_at) ∧
    (∀ (p : Phase) (s : Nat), p.completed_at = none → p.started_at = some s →
      s ≠ 0 → ∀ now, Phase.duration now p = some ((now : Int) - (s : Int))) ∧
    (∀ s : Nat, w'.completed_at = none → w'.started_at = some s → s ≠ 0 →
      ∀ now₁ now₂, now₁ < now₂ →
        duration now₁ w' = some ((now₁ : Int) - (s : Int)) ∧
        duration now₂ w' = some ((now₂ : Int) - (s : Int)) ∧
        ((now₁ : Int) - (s : Int)) < ((now₂ : Int) - (s : Int))) := by
  have hshape : w'.completed_at = w.completed_at ∧ w'.started_at = w.started_at ∧
      (∀ n, (dlookup n w'.phases).map Phase.completed_at =
        (dlookup n w.phases).map Phase.completed_at) ∧
      (∀ n, (dlookup n w'.phases).map Phase.started_at =
        (dlookup n w.phases).map Phase.started_at) := by
    simp only [fail] at h
    split at h
    · cases h; exact ⟨rfl, rfl, fun _ => rfl, fun _ => rfl⟩
    · split at h
      · cases h; exact ⟨rfl, rfl, fun _ => rfl, fun _ => rfl⟩
      · rename_i cur hc hne
        split at h
        · cases h
        · rename_i p hp
          cases h
          refine ⟨rfl, rfl, fun n => ?_, fun n => ?_⟩ <;>
          · by_cases hcase : n = cur
            · subst hcase
              simp [dlookup_dupdate_self, hp, Phase.fail]
            · rw [dlookup_dupdate_ne hcase]
  refine ⟨hshape.1, hshape.2.1, hshape.2.2.1, hshape.2.2.2, ?_, ?_⟩
  · intro p s hpc hps hs now
    simp [Phase.duration, hps, hs, hpc]
  · intro s hc hsa hs now₁ now₂ hlt
    refine ⟨by simp [duration, hsa, hs, hc], by simp [duration, hsa, hs, hc], by omega⟩

open BookWorkflow in
/-- Witness for C10: failing the concrete Running workflow with active
phase "draft". -/
theorem fail_never_stamps_completion_witness :
    (fail "backend timeout" draftActiveWorkflow =
      .ok { draftActiveWorkflow with
            status := .failed,
            phases := dupdate "draft" (Phase.fail "backend timeout")
              draftActiveWorkflow.phases }) ∧
    ({ draftActiveWorkflow with
        status := WorkflowStatus.failed,
        phases := dupdate "draft" (Phase.fail "backend timeout")
          draftActiveWorkflow.phases }.completed_at =
      draftActiveWorkflow.completed_at) := by
  have happ := fail_never_stamps_completion draftActiveWorkflow
    { draftActiveWorkflow with
      status := .failed,
      phases := dupdate "draft" (Phase.fail "backend timeout")
        draftActiveWorkflow.phases }
    "backend timeout" (by rfl)
  exact ⟨by rfl, happ.1⟩

/-! ## Message-bus lemmas and C6 -/

namespace MessageQueue

theorem dlookup_append (k : String) (l1 l2 : List (String × α)) :
    dlookup k (l1 ++ l2) = ((dlookup k l1).rec (dlookup k l2) fun v => some v) := by
  induction l1 with
  | nil => simp [dlookup]
  | cons hd tl ih =>
      obtain ⟨a, b⟩ := hd
      by_cases ha : a = k <;> simp [dlookup, ha, ih]

theorem mailbox_register (x y : String) (q : MessageQueue) :
    mailbox x (register_agent y q) = mailbox x q := by
  unfold register_agent
  split
  · rfl
  · rename_i hy
    unfold mailbox
    simp only [dlookup_append]
    by_cases hxy : x = y
    · subst hxy
      simp [hy, dlookup]
    · cases hx : dlookup x q.queues <;> simp [hx, dlookup, Ne.symm hxy]

theorem dlookup_register_self (a : String) (q : MessageQueue) :
    dlookup a (register_agent a q).queues = some (mailbox a q) := by
  unfold register_agent mailbox
  split
  · rename_i v hv
    simp [hv]
  · rename_i hv
    simp [dlookup_append, hv, dlookup]

theorem history_register (a : String) (q : MessageQueue) :
    (register_agent a q).history = q.history := by
  unfold register_agent
  split <;> rfl

theorem queues_register_keeps (a : String) (q : MessageQueue) (k : String)
    (v : List Message) (h : dlookup k q.queues = some v) :
    dlookup k (register_agent a q).queues = some v := by
  unfold register_agent
  split
  · exact h
  · simp [dlookup_append, h]

theorem history_send (m : Message) (q : MessageQueue) :
    (send_message m q).history = q.history ++ [m] := by
  unfold send_message
  simp [history_register]

theorem mailbox_send (r : String) (m : Message) (q : MessageQueue) :
    mailbox r (send_message m q) =
      if m.recipient = r then mailbox r q ++ [m] else mailbox r q := by
  unfold send_message
  by_cases hr : m.recipient = r
  · subst hr
    have hkey : dlookup m.recipient
        (register_agent m.recipient (register_agent m.sender q)).queues =
        some (mailbox m.recipient q) := by
      rw [dlookup_register_self, mailbox_register]
    simp only [mailbox, dlookup_dupdate_self, hkey, if_pos rfl]
    rfl
  · simp only [mailbox, if_neg hr]
    rw [dlookup_dupdate_ne (Ne.symm hr)]
    show mailbox r (register_agent m.recipient (register_agent m.sender q)) = mailbox r q
    rw [mailbox_register, mailbox_register]

theorem mailbox_sendAll (r : String) (ms : List Message) (q : MessageQueue)
    (h : ∀ x ∈ ms, x.recipient = r) :
    mailbox r (sendAll ms q) = mailbox r q ++ ms := by
  induction ms generalizing q with
  | nil => simp [sendAll]
  | cons m rest ih =>
      have hm : m.recipient = r := h m (by simp)
      have hrest : ∀ x ∈ rest, x.recipient = r := fun x hx => h x (by simp [hx])
      show mailbox r (sendAll rest (send_message m q)) = mailbox r q ++ m :: rest
      rw [ih (send_message m q) hrest, mailbox_send, if_pos hm]
      simp

theorem get_messages_fst (r : String) (q : MessageQueue) :
    (get_messages r q).1 = mailbox r q := by
  unfold get_messages
  show (dlookup r (register_agent r q).queues).getD [] = mailbox r q
  rw [dlookup_register_self]
  rfl

theorem mailbox_after_get (r : String) (q : MessageQueue) :
    mailbox r (get_messages r q).2 = [] := by
  unfold get_messages mailbox
  simp only
  rw [dlookup_dupdate_self, dlookup_register_self]
  rfl

end MessageQueue

open MessageQueue in
/-- C6: a message `m` for recipient `r` sent on an empty mailbox is
returned by the next `get_messages(r)` as exactly the one-element list
`[m]` (the very message sent, all fields equal), and an immediately
following `get_messages(r)` returns `[]`; in general a sequence of sends to
one recipient is returned by `get_messages` in send order (FIFO) and the
mailbox is empty afterwards. -/
theorem send_receive_fifo (q : MessageQueue) (r : String) (m : Message)
    (ms : List Message) (hm : m.recipient = r)
    (hms : ∀ x ∈ ms, x.recipient = r)
    (hemp : mailbox r q = []) :
    (get_messages r (send_message m q)).1 = [m] ∧
    (get_messages r (get_messages r (send_message m q)).2).1 = [] ∧
    (get_messages r (sendAll ms q)).1 = ms ∧
    mailbox r (get_messages r (sendAll ms q)).2 = [] := by
  refine ⟨?_, ?_, ?_, mailbox_after_get r _⟩
  · rw [get_messages_fst, mailbox_send, if_pos hm, hemp]
    rfl
  · rw [get_messages_fst, mailbox_after_get]
  · rw [get_messages_fst, mailbox_sendAll r ms q hms, hemp]
    exact List.nil_append ms

open MessageQueue in
/-- Witness for C6: one concrete task message and a concrete two-message
batch sent to recipient "r" on a fresh bus. -/
theorem send_receive_fifo_witness :
    ({ message_id := "m1", recipient := "r" } : Message).recipient = "r" ∧
    mailbox "r" {} = [] ∧
    ((get_messages "r" (send_message { message_id := "m1", recipient := "r" } {})).1 =
        [{ message_id := "m1", recipient := "r" }] ∧
      (get_messages "r"
        (get_messages "r" (send_message { message_id := "m1", recipient := "r" } {})).2).1 = [] ∧
      (get_messages "r" (sendAll
        [{ message_id := "m1", recipient := "r" },
         { message_id := "m2", recipient := "r", message_type := .result }] {})).1 =
        [{ message_id := "m1", recipient := "r" },
         { message_id := "m2", recipient := "r", message_type := .result }] ∧
      mailbox "r" (get_messages "r" (sendAll
        [{ message_id := "m1", recipient := "r" },
         { message_id := "m2", recipient := "r", message_type := .result }] {})).2 = []) :=
  ⟨rfl, rfl,
    send_receive_fifo {} "r" { message_id := "m1", recipient := "r" }
      [{ message_id := "m1", recipient := "r" },
       { message_id := "m2", recipient := "r", message_type := .result }]
      rfl (by decide) rfl⟩

/-! ## Storage: C8 -/

namespace BookStorage

/-- Every `save_component` makes "current" point at the newly written
content, whatever version label (explicit or timestamp default) is used. -/
theorem load_current_after_save (st : BookStorage) (n c : String)
    (v : Option String) (nowLabel : String) :
    load_component n "current" (save_component n c v nowLabel st) = some c := by
  unfold load_component save_component
  rw [dlookup_dinsert_self, Option.some_bind]
  by_cases hv : (match v with
      | none => nowLabel
      | some s => if s = "" then nowLabel else s) = "current"
  · rw [hv, dlookup_dinsert_self]
  · rw [dlookup_dinsert_ne (Ne.symm hv), dlookup_dinsert_self]

end BookStorage

open BookStorage in
/-- C8: `save_component(name,"X")` then `load_component(name)` (version
"current") returns "X"; `save_component(name,"Y",label)` makes
`load_component(name,label)` return "Y"; a later `save_component(name,"Z")`
without that label (its default timestamp label `ts3` differing from
`label`) leaves the `label` version at "Y" while "current" becomes "Z";
and in general every write repoints "current" at the new content while
labelled versions stay independently addressable. -/
theorem component_version_roundtrip (st : BookStorage)
    (nm label X Y Z ts1 ts3 : String)
    (hl1 : label ≠ "current") (hl2 : label ≠ "") (hts : ts3 ≠ label) :
    (∀ (s : BookStorage) (n c : String) (v : Option String) (nowLabel : String),
      load_component n "current" (save_component n c v nowLabel s) = some c) ∧
    load_component nm "current" (save_component nm X none ts1 st) = some X ∧
    load_component nm label
      (save_component nm Y (some label) ts1 (save_component nm X none ts1 st)) = some Y ∧
    load_component nm label
      (save_component nm Z none ts3
        (save_component nm Y (some label) ts1 (save_component nm X none ts1 st))) = some Y ∧
    load_component nm "current"
      (save_component nm Z none ts3
        (save_component nm Y (some label) ts1 (save_component nm X none ts1 st))) = some Z := by
  refine ⟨fun s n c v nowLabel => load_current_after_save s n c v nowLabel,
    load_current_after_save st nm X none ts1, ?_, ?_,
    load_current_after_save _ nm Z none ts3⟩
  · simp only [load_component, save_component]
    rw [dlookup_dinsert_self, Option.some_bind, if_neg hl2, dlookup_dinsert_self]
  · simp only [load_component, save_component]
    rw [dlookup_dinsert_self, Option.some_bind, dlookup_dinsert_ne (Ne.symm hts),
      dlookup_dinsert_ne hl1]
    simp [dlookup_dinsert_self, if_neg hl2]

open BookStorage in
/-- Witness for C8 with component "chapter_1", label "polished_v1" and
timestamp labels "20240101_000000"/"20240102_000000". -/
theorem component_version_roundtrip_witness :
    ("polished_v1" : String) ≠ "current" ∧
    ((∀ (s : BookStorage) (n c : String) (v : Option String) (nowLabel : String),
        load_component n "current" (save_component n c v nowLabel s) = some c) ∧
      load_component "chapter_1" "current"
        (save_component "chapter_1" "X" none "20240101_000000" ({} : BookStorage)) = some "X" ∧
      load_component "chapter_1" "polished_v1"
        (save_component "chapter_1" "Y" (some "polished_v1") "20240101_000000"
          (save_component "chapter_1" "X" none "20240101_000000" ({} : BookStorage))) = some "Y" ∧
      load_component "chapter_1" "polished_v1"
        (save_component "chapter_1" "Z" none "20240102_000000"
          (save_component "chapter_1" "Y" (some "polished_v1") "20240101_000000"
            (save_component "chapter_1" "X" none "20240101_000000" ({} : BookStorage)))) = some "Y" ∧
      load_component "chapter_1" "current"
        (save_component "chapter_1" "Z" none "20240102_000000"
          (save_component "chapter_1" "Y" (some "polished_v1") "20240101_000000"
            (save_component "chapter_1" "X" none "20240101_000000" ({} : BookStorage)))) = some "Z") :=
  ⟨by decide,
    component_version_roundtrip {} "chapter_1" "polished_v1" "X" "Y" "Z"
      "20240101_000000" "20240102_000000" (by decide) (by decide) (by decide)⟩

/-! ## C1: exact characterisation of the start/complete_phase drive -/

theorem dlookup_getElem (l : List (String × α))
    (hnd : (l.map Prod.fst).Nodup) (i : Nat) (hi : i < l.length) :
    dlookup (l[i].1) l = some (l[i].2) := by
  induction l generalizing i with
  | nil => simp at hi
  | cons hd tl ih =>
      obtain ⟨a, b⟩ := hd
      simp only [List.map_cons, List.nodup_cons] at hnd
      match i with
      | 0 => simp [dlookup]
      | i + 1 =>
          have hi' : i < tl.length := by simpa using hi
          have hkey : tl[i].1 ∈ tl.map Prod.fst := by
            exact List.mem_map_of_mem Prod.fst (List.getElem_mem hi')
          have hne : a ≠ tl[i].1 := fun hh => hnd.1 (hh ▸ hkey)
          show dlookup ((a, b) :: tl)[i+1].1 ((a, b) :: tl) = _
          simp only [List.getElem_cons_succ]
          simp [dlookup, hne, ih hnd.2 i hi']

theorem dupdate_getElem (l : List (String × α))
    (hnd : (l.map Prod.fst).Nodup) (f : α → α) (i : Nat) (hi : i < l.length) :
    dupdate (l[i].1) f l = l.set i (l[i].1, f l[i].2) := by
  induction l generalizing i with
  | nil => simp at hi
  | cons hd tl ih =>
      obtain ⟨a, b⟩ := hd
      simp only [List.map_cons, List.nodup_cons] at hnd
      match i with
      | 0 => simp [dupdate]
      | i + 1 =>
          have hi' : i < tl.length := by simpa using hi
          have hkey : tl[i].1 ∈ tl.map Prod.fst :=
            List.mem_map_of_mem Prod.fst (List.getElem_mem hi')
          have hne : a ≠ tl[i].1 := fun hh => hnd.1 (hh ▸ hkey)
          simp only [List.getElem_cons_succ, List.set_cons_succ]
          simp [dupdate, hne, ih hnd.2 i hi']

theorem dinsert_fresh (k : String) (v : α) (l : List (String × α))
    (h : dlookup k l = none) : dinsert k v l = l ++ [(k, v)] := by
  induction l with
  | nil => simp [dinsert]
  | cons hd tl ih =>
      obtain ⟨a, b⟩ := hd
      by_cases ha : a = k
      · simp [dlookup, ha] at h
      · simp only [dlookup, if_neg ha] at h
        simp [dinsert, ha, ih h]

theorem pyIndex_getElem (cfg : List String) (hnd : cfg.Nodup) (j : Nat)
    (hj : j < cfg.length) : BookWorkflow.pyIndex cfg[j] cfg = some j := by
  induction cfg generalizing j with
  | nil => simp at hj
  | cons a rest ih =>
      simp only [List.nodup_cons] at hnd
      match j with
      | 0 => simp [BookWorkflow.pyIndex]
      | j + 1 =>
          have hj' : j < rest.length := by simpa using hj
          have hmem : rest[j] ∈ rest := List.getElem_mem hj'
          have hne : a ≠ rest[j] := fun hh => hnd.1 (hh ▸ hmem)
          simp only [List.getElem_cons_succ]
          simp [BookWorkflow.pyIndex, hne, ih hnd.2 j hj']

namespace BookWorkflow

/-- The phase record expected at configuration index `i` during a run in
which the phases with index `< d` have been completed (the `j`-th
`complete_phase` call happening at time `τ j`, so phase `i` starts at
`τ i` and completes at `τ (i+1)`), the phase with index `r` (if any) is
running, and all later phases are untouched. -/
def expPhase (τ : Nat → Nat) (d : Nat) (r : Option Nat) (i : Nat)
    (n : String) : Phase :=
  if i < d then
    { name := n, status := .completed, started_at := some (τ i),
      completed_at := some (τ (i + 1)) }
  else if r = some i then
    { name := n, status := .running, started_at := some (τ i) }
  else { name := n }

/-- The whole expected `phases` dict for done-count `d` and running index
`r`. -/
def expPhases (cfg : List String) (τ : Nat → Nat) (d : Nat) (r : Option Nat) :
    List (String × Phase) :=
  cfg.enum.map (fun p => (p.2, expPhase τ d r p.1 p.2))

theorem expPhases_length (cfg : List String) (τ : Nat → Nat) (d : Nat)
    (r : Option Nat) : (expPhases cfg τ d r).length = cfg.length := by
  simp [expPhases]

theorem expPhases_keys (cfg : List String) (τ : Nat → Nat) (d : Nat)
    (r : Option Nat) : (expPhases cfg τ d r).map Prod.fst = cfg := by
  unfold expPhases
  rw [List.map_map]
  have : (Prod.fst ∘ fun p : Nat × String => (p.2, expPhase τ d r p.1 p.2)) =
      Prod.snd := by
    funext p; rfl
  rw [this, List.enum_map_snd]

theorem expPhases_getElem (cfg : List String) (τ : Nat → Nat) (d : Nat)
    (r : Option Nat) (i : Nat) (hi : i < cfg.length)
    (hi2 : i < (expPhases cfg τ d r).length) :
    (expPhases cfg τ d r)[i] = (cfg[i], expPhase τ d r i cfg[i]) := by
  unfold expPhases
  rw [List.getElem_map]
  congr 1 <;> rw [List.getElem_enum]

theorem dlookup_expPhases (cfg : List String) (τ : Nat → Nat)
    (hnd : cfg.Nodup) (d : Nat) (r : Option Nat) (j : Nat)
    (hj : j < cfg.length) :
    dlookup cfg[j] (expPhases cfg τ d r) =
      some (expPhase τ d r j cfg[j]) := by
  have hlen : j < (expPhases cfg τ d r).length := by
    rw [expPhases_length]; exact hj
  have hkeys : ((expPhases cfg τ d r).map Prod.fst).Nodup := by
    rw [expPhases_keys]; exact hnd
  have := dlookup_getElem (expPhases cfg τ d r) hkeys j hlen
  rwa [expPhases_getElem cfg τ d r j hj hlen] at this

theorem dupdate_expPhases (cfg : List String) (τ : Nat → Nat)
    (hnd : cfg.Nodup) (d : Nat) (r : Option Nat) (d' : Nat) (r' : Option Nat)
    (j : Nat) (hj : j < cfg.length) (f : Phase → Phase)
    (hres : ∀ n, f (expPhase τ d r j n) = expPhase τ d' r' j n)
    (hother : ∀ i n, i ≠ j → expPhase τ d r i n = expPhase τ d' r' i n) :
    dupdate cfg[j] f (expPhases cfg τ d r) = expPhases cfg τ d' r' := by
  have hlen : j < (expPhases cfg τ d r).length := by
    rw [expPhases_length]; exact hj
  have hkeys : ((expPhases cfg τ d r).map Prod.fst).Nodup := by
    rw [expPhases_keys]; exact hnd
  have hupd := dupdate_getElem (expPhases cfg τ d r) hkeys f j hlen
  rw [expPhases_getElem cfg τ d r j hj hlen] at hupd
  rw [hupd]
  apply List.ext_getElem
  · simp [expPhases_length]
  · intro i h1 h2
    have hi : i < cfg.length := by
      have := h1
      rw [List.length_set, expPhases_length] at this
      exact this
    by_cases hij : i = j
    · subst hij
      rw [List.getElem_set_self, expPhases_getElem cfg τ d' r' i hi h2, hres]
    · rw [List.getElem_set_ne (fun hh => hij (hh.symm)),
        expPhases_getElem cfg τ d r i hi, expPhases_getElem cfg τ d' r' i hi,
        hother i cfg[i] hij]

theorem foldl_dinsert_fresh (cfg : List String) (hnd : cfg.Nodup) :
    ∀ acc : List (String × Phase), (∀ n ∈ cfg, dlookup n acc = none) →
      cfg.foldl (fun ps n => dinsert n { name := n } ps) acc =
        acc ++ cfg.map (fun n => (n, { name := n })) := by
  induction cfg with
  | nil => intro acc _; simp
  | cons a rest ih =>
      intro acc hacc
      simp only [List.nodup_cons] at hnd
      have hfresh : dlookup a acc = none := hacc a (by simp)
      have hacc2 : ∀ n ∈ rest,
          dlookup n (acc ++ [(a, ({ name := a } : Phase))]) = none := by
        intro n hn
        rw [MessageQueue.dlookup_append]
        have h1 : dlookup n acc = none := hacc n (by simp [hn])
        have h2 : a ≠ n := fun hh => hnd.1 (hh ▸ hn)
        simp [h1, dlookup, h2]
      have hstep := ih hnd.2 (acc ++ [(a, ({ name := a } : Phase))]) hacc2
      show rest.foldl (fun ps n => dinsert n ({ name := n } : Phase) ps)
        (dinsert a ({ name := a } : Phase) acc) = _
      rw [dinsert_fresh a ({ name := a } : Phase) acc hfresh, hstep]
      simp

/-- Under a duplicate-free configuration, `__post_init__` produces exactly
one pending phase per configured name, in order. -/
theorem init_phases (cfg : List String) (book_id : String) (τ : Nat → Nat)
    (hnd : cfg.Nodup) :
    (init cfg book_id).phases = expPhases cfg τ 0 none := by
  unfold init
  show cfg.foldl (fun ps n => dinsert n ({ name := n } : Phase) ps) [] = _
  rw [foldl_dinsert_fresh cfg hnd [] (fun n _ => rfl)]
  apply List.ext_getElem
  · simp [expPhases_length]
  · intro i h1 h2
    have hi : i < cfg.length := by simpa using h1
    rw [expPhases_getElem cfg τ 0 none i hi h2]
    simp only [List.nil_append, List.getElem_map]
    simp [expPhase]

/-- The workflow state after `start()` and `k` successful `complete_phase()`
calls, for `k < N`: Running, with phase `k` current and running, phases
`< k` completed, the rest pending. -/
def midState (cfg : List String) (τ : Nat → Nat) (book_id : String)
    (k : Nat) : BookWorkflow :=
  { book_id := book_id, status := .running, started_at := some (τ 0),
    completed_at := none, current_phase := some (cfg.getD k ""),
    phases := expPhases cfg τ k (some k) }

/-- The workflow state after `start()` and all `N` `complete_phase()`
calls: Completed, no current phase, every phase completed. -/
def doneState (cfg : List String) (τ : Nat → Nat) (book_id : String) :
    BookWorkflow :=
  { book_id := book_id, status := .completed, started_at := some (τ 0),
    completed_at := some (τ cfg.length), current_phase := none,
    phases := expPhases cfg τ cfg.length none }

/-- Source `start()` at time `τ 0` followed by `k` `complete_phase()` calls, the
`j`-th at time `τ j`, on a fresh workflow. -/
def afterK (cfg : List String) (τ : Nat → Nat) (book_id : String) :
    Nat → Except String BookWorkflow
  | 0 => start cfg (τ 0) (init cfg book_id)
  | k + 1 => (afterK cfg τ book_id k).bind (complete_phase cfg (τ (k + 1)))

end BookWorkflow

namespace BookWorkflow

theorem expPhase_untouched_of_ne (τ : Nat → Nat) (d : Nat) (j : Nat) :
    ∀ i n, i ≠ j →
      expPhase τ d (some j) i n = expPhase τ d none i n := by
  intro i n hij
  have hs : ¬((some j : Option Nat) = some i) := by
    simp only [Option.some.injEq]
    exact fun hh => hij hh.symm
  simp [expPhase, hs]

theorem start_init (cfg : List String) (τ : Nat → Nat) (book_id : String)
    (hnd : cfg.Nodup) (hc : cfg ≠ []) :
    start cfg (τ 0) (init cfg book_id) = .ok (midState cfg τ book_id 0) := by
  obtain ⟨first, rest, rfl⟩ := List.exists_cons_of_ne_nil hc
  have h0 : (0 : Nat) < (first :: rest).length := by simp
  have hfirst : (first :: rest)[0] = first := rfl
  have hph : (init (first :: rest) book_id).phases =
      expPhases (first :: rest) τ 0 none := init_phases _ _ τ hnd
  have hlook : dlookup first (expPhases (first :: rest) τ 0 none) =
      some (expPhase τ 0 none 0 first) := by
    have := dlookup_expPhases (first :: rest) τ hnd 0 none 0 h0
    rwa [hfirst] at this
  have hupd : dupdate first (Phase.start (τ 0))
      (expPhases (first :: rest) τ 0 none) =
      expPhases (first :: rest) τ 0 (some 0) := by
    have := dupdate_expPhases (first :: rest) τ hnd 0 none 0 (some 0) 0 h0
      (Phase.start (τ 0))
      (fun n => by simp [expPhase, Phase.start])
      (fun i n hij => (expPhase_untouched_of_ne τ 0 0 i n hij).symm)
    rwa [hfirst] at this
  unfold start start_phase start_phase_aux
  simp only [init] at hph ⊢
  simp only [hph, hlook, hupd]
  unfold midState
  simp [List.getD_cons_zero]

end BookWorkflow

namespace BookWorkflow

theorem complete_phase_mid (cfg : List String) (τ : Nat → Nat)
    (book_id : String) (hnd : cfg.Nodup) (hne : "" ∉ cfg) (k : Nat)
    (hk : k < cfg.length) :
    complete_phase cfg (τ (k + 1)) (midState cfg τ book_id k) =
      if k + 1 < cfg.length then .ok (midState cfg τ book_id (k + 1))
      else .ok (doneState cfg τ book_id) := by
  have hgetD : cfg.getD k "" = cfg[k] := List.getD_eq_getElem cfg "" hk
  have hcurne : cfg.getD k "" ≠ "" := by
    rw [hgetD]
    exact fun hh => hne (hh ▸ List.getElem_mem hk)
  have hlook : dlookup (cfg.getD k "") (expPhases cfg τ k (some k)) =
      some (expPhase τ k (some k) k cfg[k]) := by
    rw [hgetD]
    exact dlookup_expPhases cfg τ hnd k (some k) k hk
  have hupd1 : dupdate (cfg.getD k "") (Phase.complete (τ (k + 1)))
      (expPhases cfg τ k (some k)) = expPhases cfg τ (k + 1) none := by
    rw [hgetD]
    apply dupdate_expPhases cfg τ hnd k (some k) (k + 1) none k hk
    · intro n
      have h1 : ¬(k < k) := lt_irrefl k
      have h2 : k < k + 1 := Nat.lt_succ_self k
      simp [expPhase, h1, h2, Phase.complete]
    · intro i n hij
      by_cases hik : i < k
      · have : i < k + 1 := by omega
        simp [expPhase, hik, this]
      · have h1 : ¬(i < k + 1) := by omega
        have hs : ¬((some k : Option Nat) = some i) := by
          simp only [Option.some.injEq]
          exact fun hh => hij hh.symm
        simp [expPhase, hik, h1, hs]
  have hidx : pyIndex (cfg.getD k "") cfg = some k := by
    rw [hgetD]
    exact pyIndex_getElem cfg hnd k hk
  unfold complete_phase midState
  simp only [hcurne, if_neg, hlook, hidx, hupd1]
  by_cases hbr : k + 1 < cfg.length
  · have hcond : k < cfg.length - 1 := by omega
    rw [if_pos hcond, if_pos hbr]
    have hgetD2 : cfg.getD (k + 1) "" = cfg[k + 1] :=
      List.getD_eq_getElem cfg "" hbr
    have hlook2 : dlookup (cfg.getD (k + 1) "")
        (expPhases cfg τ (k + 1) none) =
        some (expPhase τ (k + 1) none (k + 1) cfg[k + 1]) := by
      rw [hgetD2]
      exact dlookup_expPhases cfg τ hnd (k + 1) none (k + 1) hbr
    have hupd2 : dupdate (cfg.getD (k + 1) "") (Phase.start (τ (k + 1)))
        (expPhases cfg τ (k + 1) none) =
        expPhases cfg τ (k + 1) (some (k + 1)) := by
      rw [hgetD2]
      apply dupdate_expPhases cfg τ hnd (k + 1) none (k + 1) (some (k + 1))
        (k + 1) hbr
      · intro n
        have h1 : ¬(k + 1 < k + 1) := lt_irrefl _
        simp [expPhase, h1, Phase.start]
      · intro i n hij
        exact (expPhase_untouched_of_ne τ (k + 1) (k + 1) i n hij).symm
    unfold start_phase_aux
    simp only [hlook2, hupd2]
    simp
  · have hcond : ¬(k < cfg.length - 1) := by omega
    rw [if_neg hcond, if_neg hbr]
    have hNk : k + 1 = cfg.length := by omega
    unfold complete doneState
    simp only [hNk]
    simp

end BookWorkflow

namespace BookWorkflow

theorem afterK_ok (cfg : List String) (τ : Nat → Nat) (book_id : String)
    (hnd : cfg.Nodup) (hne : "" ∉ cfg) (hc : cfg ≠ []) :
    ∀ k, k ≤ cfg.length →
      afterK cfg τ book_id k =
        if k < cfg.length then .ok (midState cfg τ book_id k)
        else .ok (doneState cfg τ book_id) := by
  intro k
  induction k with
  | zero =>
      intro _
      have h0 : 0 < cfg.length := List.length_pos.mpr hc
      rw [if_pos h0]
      exact start_init cfg τ book_id hnd hc
  | succ k ih =>
      intro hk1
      have hklt : k < cfg.length := by omega
      rw [afterK, ih (le_of_lt hklt), if_pos hklt]
      show complete_phase cfg (τ (k + 1)) (midState cfg τ book_id k) = _
      rw [complete_phase_mid cfg τ book_id hnd hne k hklt]

theorem expPhase_status (τ : Nat → Nat) (d : Nat) (r : Option Nat) (i : Nat)
    (n : String) :
    (expPhase τ d r i n).status =
      if i < d then PhaseStatus.completed
      else if r = some i then PhaseStatus.running else PhaseStatus.pending := by
  unfold expPhase
  by_cases h1 : i < d
  · simp [h1]
  · by_cases h2 : r = some i <;> simp [h1, h2]

theorem phaseStatus_midState (cfg : List String) (τ : Nat → Nat)
    (book_id : String) (hnd : cfg.Nodup) (k j : Nat) (hj : j < cfg.length) :
    phaseStatus cfg[j] (midState cfg τ book_id k) =
      some (if j < k then PhaseStatus.completed
        else if j = k then PhaseStatus.running else PhaseStatus.pending) := by
  unfold phaseStatus midState
  simp only [dlookup_expPhases cfg τ hnd k (some k) j hj, Option.map_some,
    expPhase_status]
  by_cases h1 : j < k
  · simp [expPhase_status, h1]
  · by_cases h2 : j = k
    · simp [expPhase_status, h1, h2]
    · have hs : ¬((some k : Option Nat) = some j) := by
        simp only [Option.some.injEq]
        exact fun hh => h2 hh.symm
      simp [expPhase_status, h1, h2, hs]

theorem phaseStatus_doneState (cfg : List String) (τ : Nat → Nat)
    (book_id : String) (hnd : cfg.Nodup) (j : Nat) (hj : j < cfg.length) :
    phaseStatus cfg[j] (doneState cfg τ book_id) =
      some PhaseStatus.completed := by
  unfold phaseStatus doneState
  simp only [dlookup_expPhases cfg τ hnd cfg.length none j hj,
    Option.map_some, expPhase_status]
  simp [expPhase_status, hj]

end BookWorkflow

open BookWorkflow in
/-- C1: over any well-formed configured sequence (duplicate-free, no empty
name, nonempty), the run driven by `start()` followed by `complete_phase()`
calls behaves as claimed: `start()` yields Running with the first phase
current and Running; each of the first N-1 `complete_phase()` calls
completes the current phase and starts the next in configured order; the
N-th call yields Completed with `current_phase` cleared and every phase
Completed; and at every observation point the set of Completed phases is
downward-closed in the configured order (no phase completes before an
earlier one). -/
theorem workflow_drive_to_completion (cfg : List String) (τ : Nat → Nat)
    (book_id : String) (hnd : cfg.Nodup) (hne : "" ∉ cfg) (hc : cfg ≠ []) :
    (∃ w, afterK cfg τ book_id 0 = .ok w ∧ w.status = .running ∧
      w.current_phase = some (cfg.getD 0 "") ∧
      phaseStatus (cfg.getD 0 "") w = some .running) ∧
    (∀ k, k + 1 < cfg.length →
      ∃ w, afterK cfg τ book_id (k + 1) = .ok w ∧ w.status = .running ∧
        w.current_phase = some (cfg.getD (k + 1) "") ∧
        phaseStatus (cfg.getD k "") w = some .completed ∧
        phaseStatus (cfg.getD (k + 1) "") w = some .running) ∧
    (∃ w, afterK cfg τ book_id cfg.length = .ok w ∧
      w.status = .completed ∧ w.current_phase = none ∧
      ∀ n ∈ cfg, phaseStatus n w = some .completed) ∧
    (∀ k w, k ≤ cfg.length → afterK cfg τ book_id k = .ok w →
      ∀ i j : Nat, i ≤ j → j < cfg.length →
        phaseStatus (cfg.getD j "") w = some .completed →
        phaseStatus (cfg.getD i "") w = some .completed) := by
  have hlen : 0 < cfg.length := List.length_pos.mpr hc
  refine ⟨?_, ?_, ?_, ?_⟩
  · refine ⟨midState cfg τ book_id 0, ?_, rfl, rfl, ?_⟩
    · rw [afterK_ok cfg τ book_id hnd hne hc 0 (Nat.zero_le _), if_pos hlen]
    · rw [List.getD_eq_getElem cfg "" hlen,
        phaseStatus_midState cfg τ book_id hnd 0 0 hlen]
      simp
  · intro k hk1
    refine ⟨midState cfg τ book_id (k + 1), ?_, rfl, rfl, ?_, ?_⟩
    · rw [afterK_ok cfg τ book_id hnd hne hc (k + 1) (le_of_lt hk1),
        if_pos hk1]
    · rw [List.getD_eq_getElem cfg "" (by omega),
        phaseStatus_midState cfg τ book_id hnd (k + 1) k (by omega)]
      simp [Nat.lt_succ_self]
    · rw [List.getD_eq_getElem cfg "" hk1,
        phaseStatus_midState cfg τ book_id hnd (k + 1) (k + 1) hk1]
      simp
  · refine ⟨doneState cfg τ book_id, ?_, rfl, rfl, ?_⟩
    · rw [afterK_ok cfg τ book_id hnd hne hc cfg.length (le_refl _),
        if_neg (lt_irrefl _)]
    · intro n hn
      obtain ⟨j, hj, rfl⟩ := List.mem_iff_getElem.mp hn
      exact phaseStatus_doneState cfg τ book_id hnd j hj
  · intro k w hk hw i j hij hj hcomp
    have hi : i < cfg.length := by omega
    rw [afterK_ok cfg τ book_id hnd hne hc k hk] at hw
    by_cases hklt : k < cfg.length
    · rw [if_pos hklt, Except.ok.injEq] at hw
      subst hw
      rw [List.getD_eq_getElem cfg "" hj,
        phaseStatus_midState cfg τ book_id hnd k j hj] at hcomp
      have hjk : j < k := by
        by_contra hjk
        by_cases hjeq : j = k
        · simp [hjk, hjeq] at hcomp
        · simp [hjk, hjeq] at hcomp
      rw [List.getD_eq_getElem cfg "" hi,
        phaseStatus_midState cfg τ book_id hnd k i hi]
      simp [show i < k by omega]
    · rw [if_neg hklt, Except.ok.injEq] at hw
      subst hw
      rw [List.getD_eq_getElem cfg "" hi]
      exact phaseStatus_doneState cfg τ book_id hnd i hi

open BookWorkflow in
/-- Witness for C1 over the spec's configured three-phase sequence at
concrete times. -/
theorem workflow_drive_to_completion_witness :
    specPhases.Nodup ∧
    ((∃ w, afterK specPhases (fun j => j + 1) "book_1" 0 = .ok w ∧
        w.status = .running ∧
        w.current_phase = some (specPhases.getD 0 "") ∧
        phaseStatus (specPhases.getD 0 "") w = some .running) ∧
      (∀ k, k + 1 < specPhases.length →
        ∃ w, afterK specPhases (fun j => j + 1) "book_1" (k + 1) = .ok w ∧
          w.status = .running ∧
          w.current_phase = some (specPhases.getD (k + 1) "") ∧
          phaseStatus (specPhases.getD k "") w = some .completed ∧
          phaseStatus (specPhases.getD (k + 1) "") w = some .running) ∧
      (∃ w, afterK specPhases (fun j => j + 1) "book_1" specPhases.length = .ok w ∧
        w.status = .completed ∧ w.current_phase = none ∧
        ∀ n ∈ specPhases, phaseStatus n w = some .completed) ∧
      (∀ k w, k ≤ specPhases.length →
        afterK specPhases (fun j => j + 1) "book_1" k = .ok w →
        ∀ i j : Nat, i ≤ j → j < specPhases.length →
          phaseStatus (specPhases.getD j "") w = some .completed →
          phaseStatus (specPhases.getD i "") w = some .completed)) :=
  ⟨by decide,
    workflow_drive_to_completion specPhases (fun j => j + 1) "book_1"
      (by decide) (by decide) (by decide)⟩

/-! ## C7: conversation-thread reconstruction -/

namespace MessageQueue

/-- One step of the root walk, when the parent link resolves. -/
theorem findRoot_step (hist : List Message) (m m' : Message) (pid : String)
    (hpm : m.parent_id = some pid) (hpe : pid ≠ "")
    (hfind : findMsg hist pid = some m') :
    ∀ f, findRoot (f + 1) hist m = findRoot f hist m' := by
  intro f
  simp only [findRoot]
  rw [hpm]
  simp [hpe, hfind]

/-- The root walk stops at a message whose parent link is missing, empty,
or absent from the history. -/
theorem findRoot_stop (hist : List Message) (m : Message)
    (h : ∀ pid, m.parent_id = some pid → pid = "" ∨ findMsg hist pid = none) :
    ∀ f, findRoot f hist m = m := by
  intro f
  cases f with
  | zero => rfl
  | succ f =>
      simp only [findRoot]
      cases hp : m.parent_id with
      | none => rfl
      | some pid =>
          rcases h pid hp with hpe | hfind
          · simp [hpe]
          · by_cases hpe : pid = ""
            · simp [hpe]
            · simp [hpe, hfind]

/-- Unfolding of `addChildren` when the children of `pid` are known. -/
theorem addChildren_step (hist : List Message) (pid : String)
    (cs : List Message)
    (h : hist.filter (fun m => m.parent_id = some pid) = cs) :
    ∀ f, addChildren (f + 1) hist pid =
      (cs.map (fun c => c :: addChildren f hist c.message_id)).flatten := by
  intro f
  simp only [addChildren, h]

end MessageQueue

open MessageQueue in
/-- C7: for a three-message chain Task `m1` ← Result `m2` ← Feedback `m3`
(linked by `parent_id`, distinct non-empty ids, timestamps in send order,
`m1`'s own parent link — if any — absent from the history so the walk stops
there instead of failing) forming the whole history,
`get_conversation(id)` returns `[m1, m2, m3]` sorted by timestamp for each
of the three ids, and returns `[]` for any id not in the history. -/
theorem conversation_thread_chain (q : MessageQueue) (m1 m2 m3 : Message)
    (hhist : q.history = [m1, m2, m3])
    (htype1 : m1.message_type = .task)
    (htype2 : m2.message_type = .result)
    (htype3 : m3.message_type = .feedback)
    (hne1 : m1.message_id ≠ "") (hne2 : m2.message_id ≠ "")
    (hd12 : m1.message_id ≠ m2.message_id)
    (hd13 : m1.message_id ≠ m3.message_id)
    (hd23 : m2.message_id ≠ m3.message_id)
    (hp2 : m2.parent_id = some m1.message_id)
    (hp3 : m3.parent_id = some m2.message_id)
    (hp1 : ∀ pid, m1.parent_id = some pid →
      pid ≠ m1.message_id ∧ pid ≠ m2.message_id ∧ pid ≠ m3.message_id)
    (hts12 : m1.timestamp ≤ m2.timestamp)
    (hts23 : m2.timestamp ≤ m3.timestamp) :
    get_conversation m1.message_id q = [m1, m2, m3] ∧
    get_conversation m2.message_id q = [m1, m2, m3] ∧
    get_conversation m3.message_id q = [m1, m2, m3] ∧
    (∀ i, i ≠ m1.message_id → i ≠ m2.message_id → i ≠ m3.message_id →
      get_conversation i q = []) := by
  have hfind1 : findMsg [m1, m2, m3] m1.message_id = some m1 := by
    simp [findMsg, List.find?]
  have hfind2 : findMsg [m1, m2, m3] m2.message_id = some m2 := by
    simp [findMsg, List.find?, hd12]
  have hfind3 : findMsg [m1, m2, m3] m3.message_id = some m3 := by
    simp [findMsg, List.find?, hd13, hd23]
  have hroot1 : ∀ f, findRoot f [m1, m2, m3] m1 = m1 := by
    apply findRoot_stop
    intro pid hp
    rcases hp1 pid hp with ⟨h1, h2, h3⟩
    right
    simp [findMsg, List.find?, Ne.symm h1, Ne.symm h2, Ne.symm h3]
  have hroot2 : ∀ f, findRoot (f + 1) [m1, m2, m3] m2 = m1 := by
    intro f
    rw [findRoot_step [m1, m2, m3] m2 m1 m1.message_id hp2 hne1 hfind1 f,
      hroot1 f]
  have hroot3 : ∀ f, findRoot (f + 2) [m1, m2, m3] m3 = m1 := by
    intro f
    rw [findRoot_step [m1, m2, m3] m3 m2 m2.message_id hp3 hne2 hfind2 (f + 1),
      hroot2 f]
  have hnp1 : ∀ pid, (m1.parent_id = some pid) →
      pid ≠ m1.message_id ∧ pid ≠ m2.message_id ∧ pid ≠ m3.message_id := hp1
  have hfilter1 : ([m1, m2, m3] : List Message).filter
      (fun m => m.parent_id = some m1.message_id) = [m2] := by
    have h1 : ¬(m1.parent_id = some m1.message_id) := fun hh =>
      (hnp1 _ hh).1 rfl
    have h3 : ¬(m3.parent_id = some m1.message_id) := by
      rw [hp3]
      simp only [Option.some.injEq]
      exact Ne.symm hd12
    simp [List.filter, h1, h3, hp2]
  have hfilter2 : ([m1, m2, m3] : List Message).filter
      (fun m => m.parent_id = some m2.message_id) = [m3] := by
    have h1 : ¬(m1.parent_id = some m2.message_id) := fun hh =>
      (hnp1 _ hh).2.1 rfl
    have h2 : ¬(m2.parent_id = some m2.message_id) := by
      rw [hp2]
      simp only [Option.some.injEq]
      exact hd12
    simp [List.filter, h1, h2, hp3]
  have hfilter3 : ([m1, m2, m3] : List Message).filter
      (fun m => m.parent_id = some m3.message_id) = [] := by
    have h1 : ¬(m1.parent_id = some m3.message_id) := fun hh =>
      (hnp1 _ hh).2.2 rfl
    have h2 : ¬(m2.parent_id = some m3.message_id) := by
      rw [hp2]
      simp only [Option.some.injEq]
      exact hd13
    have h3 : ¬(m3.parent_id = some m3.message_id) := by
      rw [hp3]
      simp only [Option.some.injEq]
      exact hd23
    simp [List.filter, h1, h2, h3]
  have hacc3 : ∀ f, addChildren f [m1, m2, m3] m3.message_id = [] := by
    intro f
    cases f with
    | zero => rfl
    | succ f => rw [addChildren_step [m1, m2, m3] m3.message_id [] hfilter3 f]; rfl
  have hacc2 : ∀ f, addChildren (f + 1) [m1, m2, m3] m2.message_id = [m3] := by
    intro f
    rw [addChildren_step [m1, m2, m3] m2.message_id [m3] hfilter2 f]
    simp [hacc3 f]
  have hacc1 : ∀ f, addChildren (f + 2) [m1, m2, m3] m1.message_id = [m2, m3] := by
    intro f
    rw [addChildren_step [m1, m2, m3] m1.message_id [m2] hfilter1 (f + 1)]
    simp [hacc2 f]
  have hsorted : List.Sorted (fun a b : Message => a.timestamp ≤ b.timestamp)
      [m1, m2, m3] := by
    simp only [List.sorted_cons, List.mem_cons, List.mem_singleton]
    refine ⟨?_, ?_, by simp⟩
    · intro b hb
      rcases hb with rfl | rfl | h
      · exact hts12
      · exact le_trans hts12 hts23
      · simp at h
    · intro b hb
      rcases hb with rfl | h
      · exact hts23
      · simp at h
  have hsort : ([m1, m2, m3] : List Message).insertionSort
      (fun a b => a.timestamp ≤ b.timestamp) = [m1, m2, m3] :=
    List.Sorted.insertionSort_eq hsorted
  refine ⟨?_, ?_, ?_, ?_⟩
  · unfold get_conversation
    rw [hhist, hfind1]
    show (findRoot 4 [m1, m2, m3] m1 ::
      addChildren 4 [m1, m2, m3] (findRoot 4 [m1, m2, m3] m1).message_id).insertionSort
        (fun a b => a.timestamp ≤ b.timestamp) = _
    rw [hroot1 4]
    rw [show (4 : Nat) = 2 + 2 from rfl, hacc1 2]
    exact hsort
  · unfold get_conversation
    rw [hhist, hfind2]
    show (findRoot 4 [m1, m2, m3] m2 ::
      addChildren 4 [m1, m2, m3] (findRoot 4 [m1, m2, m3] m2).message_id).insertionSort
        (fun a b => a.timestamp ≤ b.timestamp) = _
    rw [show (4 : Nat) = 3 + 1 from rfl, hroot2 3]
    rw [show (3 : Nat) + 1 = 2 + 2 from rfl, hacc1 2]
    exact hsort
  · unfold get_conversation
    rw [hhist, hfind3]
    show (findRoot 4 [m1, m2, m3] m3 ::
      addChildren 4 [m1, m2, m3] (findRoot 4 [m1, m2, m3] m3).message_id).insertionSort
        (fun a b => a.timestamp ≤ b.timestamp) = _
    rw [show (4 : Nat) = 2 + 2 from rfl, hroot3 2]
    rw [hacc1 2]
    exact hsort
  · intro i hi1 hi2 hi3
    unfold get_conversation
    rw [hhist]
    have : findMsg [m1, m2, m3] i = none := by
      simp [findMsg, List.find?, Ne.symm hi1, Ne.symm hi2, Ne.symm hi3]
    rw [this]

/-- Concrete Task message rooting a witness conversation chain. -/
def msgTask : Message :=
  { message_id := "id1", message_type := .task, sender := "maestro",
    recipient := "outline", timestamp := "2024-01-01T10:00:00" }

/-- Concrete Result message answering `msgTask`. -/
def msgResult : Message :=
  { message_id := "id2", message_type := .result, sender := "outline",
    recipient := "maestro", timestamp := "2024-01-01T10:05:00",
    parent_id := some "id1" }

/-- Concrete Feedback message answering `msgResult`. -/
def msgFeedback : Message :=
  { message_id := "id3", message_type := .feedback, sender := "maestro",
    recipient := "outline", timestamp := "2024-01-01T10:06:00",
    parent_id := some "id2" }

open MessageQueue in
/-- Witness for C7 on a concrete Task → Result → Feedback chain. -/
theorem conversation_thread_chain_witness :
    msgTask.message_id ≠ msgResult.message_id ∧
    (get_conversation msgTask.message_id
        { queues := [], history := [msgTask, msgResult, msgFeedback] } =
        [msgTask, msgResult, msgFeedback] ∧
      get_conversation msgResult.message_id
        { queues := [], history := [msgTask, msgResult, msgFeedback] } =
        [msgTask, msgResult, msgFeedback] ∧
      get_conversation msgFeedback.message_id
        { queues := [], history := [msgTask, msgResult, msgFeedback] } =
        [msgTask, msgResult, msgFeedback] ∧
      (∀ i, i ≠ msgTask.message_id → i ≠ msgResult.message_id →
        i ≠ msgFeedback.message_id →
        get_conversation i
          { queues := [], history := [msgTask, msgResult, msgFeedback] } = [])) :=
  ⟨by decide,
    conversation_thread_chain
      { queues := [], history := [msgTask, msgResult, msgFeedback] }
      msgTask msgResult msgFeedback rfl rfl rfl rfl (by decide) (by decide)
      (by decide) (by decide) (by decide) rfl rfl
      (fun pid h => by exact absurd h (by simp [msgTask]))
      (by rw [String.le_iff_toList_le]; decide)
      (by rw [String.le_iff_toList_le]; decide)⟩
